import Mathlib

/- Verification development for the news classification pipeline
   (config.py, parser.py, ai.py, db.py, main.py, pipeline/manager.py).

   Modelling conventions:
   - Python floats are modelled as rationals; real numbers are used only
     where the code takes square roots (cosine similarity).
   - Network calls are modelled by oracles (functions giving the reply of
     the remote service) or by explicit response traces.
   - Regular-expression matching is abstracted by a match-count oracle
     giving, for a text and a category, how many of that category's
     patterns match; the classification logic itself is modelled exactly.
   - The sha256 hex digest is abstracted as an arbitrary function on the
     hashed string: every property proved about fingerprints is proved for
     all such functions, which covers the real deterministic sha256. -/

/-- Data attached to one category in CATEGORY_ANCHORS (config.py). -/
structure AnchorData where
  desc : String
  weight : ℚ
  priority : ℕ
  deriving DecidableEq

/-- CATEGORY_ANCHORS of config.py as an association list, in Python dict
insertion order. -/
def CATEGORY_ANCHORS : List (String × AnchorData) :=
  [("WELFARE",
    { desc := "Indian government schemes, subsidies, ration cards, aadhaar, free grain, farmers welfare, women empowerment, pension schemes, PM Kisan, Awas Yojana.",
      weight := 14, priority := 1 }),
   ("ALERTS",
    { desc := "Urgent security warning, cyber crime, banking fraud, OTP scams, deepfake, malware, phishing, ransomware, police alert, data breach.",
      weight := 10, priority := 2 }),
   ("WAR_GEO",
    { desc := "International war, missile attacks, defense military, Russia Ukraine conflict, Israel Gaza Hamas, geopolitics, nuclear threat, NATO operations.",
      weight := 9, priority := 3 }),
   ("POLITICS",
    { desc := "Parliament session, election results, BJP Congress political news, prime minister speech, new laws passed, court decisions.",
      weight := 8, priority := 4 }),
   ("FINANCE",
    { desc := "Stock market crash, RBI repo rate, inflation data, GST tax news, gold price, home loan interest, economy GDP, job recruitment.",
      weight := 7, priority := 5 }),
   ("TECH_SCI",
    { desc := "Artificial intelligence breakthrough, space exploration, ISRO NASA launch, new scientific discovery, future technology, robotics, quantum computing.",
      weight := 6, priority := 6 }),
   ("NOISE",
    { desc := "Horoscope, zodiac signs, celebrity gossip, dating tips, fashion wardrobe, movie box office collection, cricket match score, viral video.",
      weight := -100, priority := 99 })]

/-- Keys of REGEX_FALLBACK (config.py), in Python dict insertion order.
This is the iteration order of the scores dict in RegexClassifier.classify. -/
def REGEX_FALLBACK_CATEGORIES : List String :=
  ["WELFARE", "ALERTS", "WAR_GEO", "TECH_SCI", "FINANCE", "POLITICS", "NOISE"]

/-- Weight lookup CATEGORY_ANCHORS.get(category, empty).get(weight-key, 0)
used by both scorers in ai.py. -/
def anchorWeight (c : String) : ℚ :=
  ((CATEGORY_ANCHORS.find? (fun p => p.1 == c)).map (fun p => p.2.weight)).getD 0

/-- Python round(x, 2) on the rational values produced by the scorers.
Mathlib round is round-half-up while Python rounds floats half-to-even;
the two agree away from ties at the second decimal, which covers every
value this development evaluates. -/
def round2 (q : ℚ) : ℚ := (round (q * 100) : ℤ) / 100

/-- An embedding vector (a Python list of floats). -/
abbrev Emb := List ℚ

/- ------------------------------------------------------------------
   parser.py: content fingerprint and in-batch deduplication
   ------------------------------------------------------------------ -/

/-- RSSParser.generate_content_hash (parser.py, lines 28-31): the sha256
hex digest of the separator-free concatenation of title and link. The
digest itself is the abstract function sha. -/
def generate_content_hash (sha : String → String) (title link : String) : String :=
  sha (title ++ link)

/-- An article record as built by the parser and consumed by db.py.
The category field is absent (none) until classification writes it. -/
structure RawArticle where
  title : String
  link : String
  summary : String
  content_hash : String
  category : Option String
  deriving DecidableEq

/-- Construction of one article dict in RSSParser.parse_single_feed
(parser.py, lines 71-79), restricted to the fields the claims mention. -/
def parse_entry (sha : String → String) (title link summary : String) : RawArticle :=
  { title := title, link := link, summary := summary,
    content_hash := generate_content_hash sha title link, category := none }

/-- Loop state of the seen-hashes deduplication in RSSParser.parse_feeds
(parser.py, lines 134-142): first occurrence of a fingerprint wins. -/
def dedupSeen (seen : List String) : List RawArticle → List RawArticle
  | [] => []
  | a :: rest =>
    if seen.contains a.content_hash then dedupSeen seen rest
    else a :: dedupSeen (a.content_hash :: seen) rest

/-- In-batch deduplication performed at the end of RSSParser.parse_feeds. -/
def remove_duplicates (arts : List RawArticle) : List RawArticle := dedupSeen [] arts

/- ------------------------------------------------------------------
   db.py: persisted-hash check and batch save
   ------------------------------------------------------------------ -/

/-- DatabaseManager.check_existing_hashes (db.py, lines 42-65): the set of
already-stored hashes among the queried ones, modelled as a list. -/
def check_existing_hashes (store : List String) (hashes : List String) : List String :=
  store.filter (fun h => hashes.contains h)

/-- DatabaseManager.save_articles_batch (db.py, lines 67-140): noise
filtering, duplicate filtering against the store, and insertion. Returns
the inserted records and the updated store of hashes. -/
def save_articles_batch (store : List String) (articles : List RawArticle)
    (skipNoise : Bool) : List RawArticle × List String :=
  let arts := if skipNoise then articles.filter (fun a => a.category != some "NOISE")
              else articles
  let hashes := (arts.map (fun a => a.content_hash)).filter (fun h => h != "")
  let existing := check_existing_hashes store hashes
  let newArticles := arts.filter
    (fun a => a.content_hash != "" && !(existing.contains a.content_hash))
  (newArticles, store ++ newArticles.map (fun a => a.content_hash))

/- ------------------------------------------------------------------
   ai.py: CloudflareEmbedding - request retries and chunked batching
   ------------------------------------------------------------------ -/

/-- Configured batch size of the Cloudflare provider (config.py). -/
def CF_BATCH_SIZE : ℕ := 50

/-- Configured maximum number of request attempts per chunk (config.py). -/
def CF_MAX_RETRIES : ℕ := 3

/-- Configured base retry delay in seconds (config.py). -/
def CF_RETRY_DELAY : ℚ := 1

/-- Possible outcomes of one HTTP POST in CloudflareEmbedding.make_request
(ai.py, lines 52-106): a well-formed 200 reply, a 200 reply without the
expected result data, a 429 rate limit, another HTTP error status (for
example 401 auth failures), a timeout, or any other exception. -/
inductive CFResponse where
  | ok (embs : List Emb)
  | malformed
  | rateLimited
  | httpError (code : ℕ)
  | timeout
  | exn
  deriving DecidableEq

/-- CloudflareEmbedding.make_request (ai.py, lines 52-106) run against a
trace of successive HTTP outcomes for one chunk, starting at the given
attempt number (the code starts at 1). Returns the value the Python
function returns (an optional embedding list - the function never raises),
the number of HTTP attempts consumed, and the total seconds slept in
exponential backoff. An exhausted trace is treated as a connection
exception on the next attempt. -/
def make_request : List CFResponse → ℕ → Option (List Emb) × ℕ × ℚ
  | [], _ => (none, 1, 0)
  | resp :: rest, attempt =>
    match resp with
    | .ok es => (some es, 1, 0)
    | .malformed => (none, 1, 0)
    | .rateLimited =>
      if attempt < CF_MAX_RETRIES then
        let r := make_request rest (attempt + 1)
        (r.1, r.2.1 + 1, r.2.2 + CF_RETRY_DELAY * 2 ^ attempt)
      else (none, 1, 0)
    | .httpError _ => (none, 1, 0)
    | .timeout => (none, 1, 0)
    | .exn => (none, 1, 0)

/-- Chunking texts[i:i+batch_size] of generate_embeddings (ai.py, line
119-120), written with an explicit structural counter so that it computes
by reduction. -/
def chunkListAux {α : Type*} (k : ℕ) : ℕ → List α → List (List α)
  | 0, _ => []
  | _, [] => []
  | n + 1, l => l.take k :: chunkListAux k n (l.drop k)

/-- The list of successive chunks of size k of a list. -/
def chunkList {α : Type*} (k : ℕ) (l : List α) : List (List α) :=
  chunkListAux k l.length l

/-- Per-chunk accumulation loop of CloudflareEmbedding.generate_embeddings
(ai.py, lines 119-136): the first failed chunk fails the whole attempt,
otherwise chunk results are concatenated in order. The oracle req gives
the outcome of make_request on one chunk. -/
def mapChunks (req : List String → Option (List Emb)) :
    List (List String) → Option (List Emb)
  | [] => some []
  | c :: cs =>
    match req c with
    | none => none
    | some es =>
      match mapChunks req cs with
      | none => none
      | some rest => some (es ++ rest)

/-- CloudflareEmbedding.generate_embeddings (ai.py, lines 108-139). -/
def generate_embeddings (isConfigured : Bool)
    (req : List String → Option (List Emb)) (texts : List String) :
    Option (List Emb) :=
  if !isConfigured || texts.isEmpty then none
  else mapChunks req (chunkList CF_BATCH_SIZE texts)

/- ------------------------------------------------------------------
   ai.py: cosine similarity (AIEngine.cosine_similarity, lines 276-288)
   ------------------------------------------------------------------ -/

open scoped Classical

/-- Dot product np.dot of two vectors; the pipeline only ever compares
vectors of equal dimension. -/
def dotQ (v w : Emb) : ℚ := (List.zipWith (fun a b => a * b) v w).sum

/-- Squared Euclidean norm of a vector (the square of np.linalg.norm). -/
def normSq (v : Emb) : ℚ := dotQ v v

/-- AIEngine.cosine_similarity (ai.py, lines 276-288): dot product over
the product of norms, with an explicit zero result when either norm is
zero. The norms live in the reals because of the square root. -/
noncomputable def cosine_similarity (v w : Emb) : ℝ :=
  let norm1 := Real.sqrt ((normSq v : ℚ) : ℝ)
  let norm2 := Real.sqrt ((normSq w : ℚ) : ℝ)
  if norm1 = 0 ∨ norm2 = 0 then 0
  else ((dotQ v w : ℚ) : ℝ) / (norm1 * norm2)

/-- Python round(x, 2) on the real-valued embedding-path scores. -/
noncomputable def round2R (x : ℝ) : ℝ := ((round (x * 100) : ℤ) : ℝ) / 100

/- ------------------------------------------------------------------
   ai.py: RegexClassifier and the two scorers
   ------------------------------------------------------------------ -/

/-- The scores dict of RegexClassifier.classify (ai.py, lines 214-218):
for each REGEX_FALLBACK category in order, the number of its patterns
matching the lowercased text, supplied by the match-count oracle mc. -/
def regexScores (mc : String → String → ℕ) (text : String) : List (String × ℕ) :=
  REGEX_FALLBACK_CATEGORIES.map (fun c => (c, mc text c))

/-- Python max(scores, key=scores.get): the first key with maximal value
in iteration order (a later key replaces the current best only when
strictly greater). -/
def bestIn (l : List (String × ℕ)) : Option (String × ℕ) :=
  l.foldl
    (fun acc p =>
      match acc with
      | none => some p
      | some q => if p.2 > q.2 then some p else some q)
    none

/-- RegexClassifier.classify (ai.py, lines 207-230): returns the winning
category and a confidence in [0, 1], or the GENERAL default with
confidence 0.3 when no pattern matches at all (or the dict is empty). -/
def classify (scores : List (String × ℕ)) : String × ℚ :=
  match bestIn scores with
  | none => ("GENERAL", 3 / 10)
  | some (c, n) =>
    if n > 0 then (c, min ((n : ℚ) / 3) 1)
    else ("GENERAL", 3 / 10)

/-- AIEngine.categorize_by_regex (ai.py, lines 317-330): score
5 + weight + confidence * 5 rounded to two decimals, except a NOISE win
forces the score to -50. -/
def categorize_by_regex (scores : List (String × ℕ)) : String × ℚ :=
  let cc := classify scores
  let weight := anchorWeight cc.1
  if cc.1 == "NOISE" then (cc.1, round2 (-50))
  else (cc.1, round2 (5 + weight + cc.2 * 5))

/- ------------------------------------------------------------------
   ai.py: embedding-based scorer (AIEngine.categorize_by_embedding)
   ------------------------------------------------------------------ -/

/-- The best-anchor loop of AIEngine.categorize_by_embedding (ai.py,
lines 296-304): fold over the anchor items starting from (GENERAL, -1),
replacing the best pair whenever the similarity is strictly greater. -/
noncomputable def bestAnchor (anchors : List (String × Emb)) (emb : Emb) :
    String × ℝ :=
  anchors.foldl
    (fun acc p =>
      if cosine_similarity emb p.2 > acc.2 then (p.1, cosine_similarity emb p.2)
      else acc)
    ("GENERAL", -1)

/-- AIEngine.categorize_by_embedding (ai.py, lines 290-315): best anchor
by cosine similarity, then score similarity * 10 + weight rounded to two
decimals, except a NOISE win forces the score to -50; the input embedding
is returned unchanged as the third component. -/
noncomputable def categorize_by_embedding (anchors : List (String × Emb))
    (emb : Emb) : String × ℝ × Emb :=
  let best := bestAnchor anchors emb
  if best.1 == "NOISE" then (best.1, round2R (-50), emb)
  else (best.1, round2R (best.2 * 10 + (anchorWeight best.1 : ℚ)), emb)

/- ------------------------------------------------------------------
   ai.py: engine state, anchor initialization, batch processing
   ------------------------------------------------------------------ -/

/-- The anchor_method field of AIEngine after initialize_anchors. -/
inductive AnchorMethod where
  | cloudflare
  | local
  | regex
  deriving DecidableEq

/-- The fields of AIEngine fixed by initialize_anchors (ai.py): the
anchor embeddings dict (as an association list, none when unset) and the
method that produced them. -/
structure EngineState where
  anchorEmbeddings : Option (List (String × Emb))
  anchorMethod : AnchorMethod
  deriving DecidableEq

/-- Python truthiness of an optional list (None and the empty list are
falsy). -/
def optNonempty {α : Type*} : Option (List α) → Bool
  | some (_ :: _) => true
  | _ => false

/-- AIEngine.initialize_anchors (ai.py, lines 249-274): embed the anchor
descriptions through the Cloudflare tier then the local tier; on total
failure commit to regex-only mode with no anchor dict. dict(zip ..)
truncates to the shorter list exactly as List.zip does. cfReq is the
per-chunk Cloudflare outcome oracle, localGen the local model oracle. -/
def initialize_anchors (cfConfigured : Bool)
    (cfReq : List String → Option (List Emb))
    (localGen : List String → Option (List Emb)) : EngineState :=
  let descriptions := CATEGORY_ANCHORS.map (fun p => p.2.desc)
  let categories := CATEGORY_ANCHORS.map (fun p => p.1)
  let e1 := generate_embeddings cfConfigured cfReq descriptions
  if optNonempty e1 then
    { anchorEmbeddings := some (categories.zip (e1.getD [])),
      anchorMethod := .cloudflare }
  else
    let e2 := localGen descriptions
    if optNonempty e2 then
      { anchorEmbeddings := some (categories.zip (e2.getD [])),
        anchorMethod := .local }
    else { anchorEmbeddings := none, anchorMethod := .regex }

/-- One input article of AIEngine.process_articles. -/
structure ArtIn where
  title : String
  summary : String
  deriving DecidableEq

/-- One output article of AIEngine.process_articles, restricted to the
fields the code adds (plus the text identity fields). -/
structure ArtOut where
  title : String
  summary : String
  category : String
  score : ℝ
  embedding : Option Emb
  method : String

/-- Text prepared for embedding in process_articles (ai.py, line 343). -/
def artText (a : ArtIn) : String := a.title ++ " " ++ a.summary

/-- Per-article classification step of the loop in AIEngine.
process_articles (ai.py, lines 358-380): article i uses the embedding
path exactly when the batch produced an embedding list containing an
index-i entry, and the regex fallback otherwise. -/
noncomputable def classifyArticle (mc : String → String → ℕ)
    (anchors : List (String × Emb)) (embeddings : Option (List Emb))
    (ia : ℕ × ArtIn) : ArtOut :=
  match embeddings with
  | some es =>
    if ia.1 < es.length then
      let r := categorize_by_embedding anchors (es.getD ia.1 [])
      { title := ia.2.title, summary := ia.2.summary, category := r.1,
        score := r.2.1, embedding := some r.2.2, method := "embedding" }
    else
      let r := categorize_by_regex (regexScores mc (artText ia.2))
      { title := ia.2.title, summary := ia.2.summary, category := r.1,
        score := (r.2 : ℝ), embedding := none, method := "regex" }
  | none =>
    let r := categorize_by_regex (regexScores mc (artText ia.2))
    { title := ia.2.title, summary := ia.2.summary, category := r.1,
      score := (r.2 : ℝ), embedding := none, method := "regex" }

/-- The embedding batch attempted by process_articles (ai.py, lines
345-356): only when the anchor dict is truthy and the anchor method is
cloudflare or local; a failed Cloudflare attempt falls through to the
local tier. -/
def batchEmbeddings (cfConfigured : Bool)
    (cfReq : List String → Option (List Emb))
    (localGen : List String → Option (List Emb))
    (st : EngineState) (texts : List String) : Option (List Emb) :=
  if optNonempty st.anchorEmbeddings &&
      (st.anchorMethod == .cloudflare || st.anchorMethod == .local) then
    match generate_embeddings cfConfigured cfReq texts with
    | some es => some es
    | none => localGen texts
  else none

/-- AIEngine.process_articles (ai.py, lines 332-390). -/
noncomputable def process_articles (cfConfigured : Bool)
    (cfReq : List String → Option (List Emb))
    (localGen : List String → Option (List Emb))
    (mc : String → String → ℕ) (st : EngineState) (articles : List ArtIn) :
    List ArtOut :=
  if articles.isEmpty then []
  else
    articles.enum.map
      (classifyArticle mc (st.anchorEmbeddings.getD [])
        (batchEmbeddings cfConfigured cfReq localGen st (articles.map artText)))

/- ------------------------------------------------------------------
   db.py and main.py: round-robin diversity selection
   ------------------------------------------------------------------ -/

/-- One persisted candidate row as fetched by the selectors. -/
structure DbArticle where
  id : ℕ
  title : String
  category : String
  score : ℚ
  deriving DecidableEq

/-- Stable sort of candidates by descending score, modelling the stable
Python list.sort(key=score, reverse=True); insertion sort is stable, so
it agrees with the code on every input whose comparator is a total
preorder, which score comparison is. -/
def scoreSortDesc (l : List DbArticle) : List DbArticle :=
  List.insertionSort (fun a b => b.score ≤ a.score) l

/-- The category priority order computed in db.py (lines 191-197) and
main.py (lines 253-257): CATEGORY_ANCHORS keys stably sorted by ascending
priority (missing priorities default to 99, which never happens here),
with NOISE removed. -/
def priority_order : List String :=
  ((List.insertionSort (fun a b : String × AnchorData => a.2.priority ≤ b.2.priority)
      CATEGORY_ANCHORS).map (fun p => p.1)).filter (fun c => c != "NOISE")

/-- Python defaultdict bucketing: append an article to the bucket of its
category, creating the bucket at the end on first occurrence. -/
def addToBucket : List (String × List DbArticle) → DbArticle →
    List (String × List DbArticle)
  | [], a => [(a.category, [a])]
  | (c, items) :: rest, a =>
    if c == a.category then (c, items ++ [a]) :: rest
    else (c, items) :: addToBucket rest a

/-- Bucket candidates by category preserving candidate order, as in
db.py lines 180-183 and main.py lines 246-249. -/
def buildBuckets (cands : List DbArticle) : List (String × List DbArticle) :=
  cands.foldl addToBucket []

/-- Lookup of a bucket, with the defaultdict empty default. -/
def blookup (B : List (String × List DbArticle)) (c : String) : List DbArticle :=
  ((B.find? (fun p => p.1 == c)).map (fun p => p.2)).getD []

/-- Replacement of the bucket of an existing category (pops only ever
touch categories that are present with a non-empty bucket). -/
def bset : List (String × List DbArticle) → String → List DbArticle →
    List (String × List DbArticle)
  | [], _, _ => []
  | (c2, items) :: rest, c, v =>
    if c2 == c then (c2, v) :: rest else (c2, items) :: bset rest c v

/-- State of the selection loops: output list so far and the buckets. -/
structure SelState where
  selected : List DbArticle
  buckets : List (String × List DbArticle)
  deriving DecidableEq

/-- Python any(buckets.values()). -/
def anyBucket (B : List (String × List DbArticle)) : Bool :=
  B.any (fun p => !p.2.isEmpty)

/-- Python any(buckets[cat] for cat in priority_order). -/
def anyBucketOn (prio : List String) (B : List (String × List DbArticle)) : Bool :=
  prio.any (fun c => !(blookup B c).isEmpty)

/-- One inner for-pass over the priority order (db.py lines 201-208,
main.py lines 260-264): at each category, stop touching the state once
the limit is reached (the Python break), otherwise pop the front of a
non-empty bucket into the output. -/
def passOnce (limit : ℕ) (prio : List String) (st : SelState) : SelState :=
  prio.foldl
    (fun s c =>
      if limit ≤ s.selected.length then s
      else
        match blookup s.buckets c with
        | [] => s
        | a :: rest =>
          { selected := s.selected ++ [a], buckets := bset s.buckets c rest })
    st

/-- The while loop of DatabaseManager.get_diverse_top_picks (db.py lines
200-212), including its break when a pass leaves every priority bucket
empty. The fuel counts outer iterations; none models non-termination
within the given fuel. -/
def dbLoop : ℕ → ℕ → List String → SelState → Option SelState
  | 0, _, _, _ => none
  | fuel + 1, limit, prio, st =>
    if st.selected.length < limit && anyBucket st.buckets then
      let st2 := passOnce limit prio st
      if !(anyBucketOn prio st2.buckets) then some st2
      else dbLoop fuel limit prio st2
    else some st

/-- The while loop of NewsPipeline.simulate_selection (main.py lines
259-264): identical to the db.py loop except that the zero-pop break is
missing. -/
def simLoop : ℕ → ℕ → List String → SelState → Option SelState
  | 0, _, _, _ => none
  | fuel + 1, limit, prio, st =>
    if st.selected.length < limit && anyBucket st.buckets then
      simLoop fuel limit prio (passOnce limit prio st)
    else some st

/-- Second pass of both selectors (db.py lines 214-224, main.py lines
266-270): pool every remaining bucketed item, sort by descending score,
and append until the limit is reached. -/
def backfill (limit : ℕ) (st : SelState) : List DbArticle :=
  if st.selected.length < limit then
    st.selected ++
      (scoreSortDesc ((st.buckets.map (fun p => p.2)).flatten)).take
        (limit - st.selected.length)
  else st.selected

/-- DatabaseManager.get_diverse_top_picks (db.py lines 142-239) from its
fetched candidate snapshot onward (the database supplies the candidates
already filtered to pending rows with score above the minimum, sorted by
descending score; the claims quantify over arbitrary pools). -/
def get_diverse_top_picks (fuel : ℕ) (candidates : List DbArticle)
    (limit : ℕ) : Option (List DbArticle) :=
  if candidates.isEmpty then some []
  else
    match dbLoop fuel limit priority_order
        { selected := [], buckets := buildBuckets candidates } with
    | none => none
    | some st => some (backfill limit st)

/-- NewsPipeline.simulate_selection (main.py lines 234-272): filter out
NOISE, sort by descending score, bucket, run the break-free loop, then
backfill. -/
def simulate_selection (fuel : ℕ) (articles : List DbArticle) (limit : ℕ) :
    Option (List DbArticle) :=
  let candidates := scoreSortDesc (articles.filter (fun a => a.category != "NOISE"))
  match simLoop fuel limit priority_order
      { selected := [], buckets := buildBuckets candidates } with
  | none => none
  | some st => some (backfill limit st)

/- ------------------------------------------------------------------
   Derived configuration values and concrete evaluation inputs
   ------------------------------------------------------------------ -/

/-- The fixed enumerated category set of the specification: the
CATEGORY_ANCHORS taxonomy plus the GENERAL default. -/
def fixedCategories : List String :=
  (CATEGORY_ANCHORS.map (fun p => p.1)) ++ ["GENERAL"]

/-- An embedding oracle that always fails (provider unavailable). -/
def failOracle : List String → Option (List Emb) := fun _ => none

/-- A match-count oracle for a text matching zero keyword patterns. -/
def mcZero : String → String → ℕ := fun _ _ => 0

/-- The engine state after anchor initialization fails entirely. -/
def regexOnlyState : EngineState :=
  { anchorEmbeddings := none, anchorMethod := .regex }

/-- A one-article batch used to evaluate the regex-only path. -/
def artInW : ArtIn := { title := "t", summary := "s" }

/-- The classifier output for artInW on the regex-only path: the GENERAL
default with the constant score 5 + 0 + 0.3 * 5 = 6.5. -/
noncomputable def artOutGeneralW : ArtOut :=
  { title := "t", summary := "s", category := "GENERAL",
    score := ((13 / 2 : ℚ) : ℝ), embedding := none, method := "regex" }

/-- A concrete pool with exactly one candidate per priority category. -/
def pool6W : List DbArticle :=
  [{ id := 1, title := "a", category := "TECH_SCI", score := 7 },
   { id := 2, title := "b", category := "WELFARE", score := 20 },
   { id := 3, title := "c", category := "FINANCE", score := 9 },
   { id := 4, title := "d", category := "ALERTS", score := 15 },
   { id := 5, title := "e", category := "POLITICS", score := 8 },
   { id := 6, title := "f", category := "WAR_GEO", score := 11 }]

/- ==================================================================
   Theorems
   ================================================================== -/

/-- A state on which one full pass pops nothing while the loop guard
still holds makes the break-free main.py loop run forever. -/
lemma simLoop_stuck (fuel limit : ℕ) (prio : List String) (st : SelState)
    (hguard : (decide (st.selected.length < limit) && anyBucket st.buckets) = true)
    (hfix : passOnce limit prio st = st) :
    simLoop fuel limit prio st = none := by
  induction fuel with
  | zero => rfl
  | succ n ih =>
    rw [simLoop, hfix, hguard]
    simpa using ih

/-- C3: the claim states that for every candidate pool and every limit
exceeding the pool size the round-robin selector terminates and returns
all candidates. The db.py selector does (second conjunct, evaluated on
the failing pool), but the dry-run selector of main.py loops forever on
a pool containing a GENERAL article, because GENERAL is not a
CATEGORY_ANCHORS key, so no pass ever pops its bucket while the loop
guard any(buckets.values()) stays true: for every fuel the loop model
reports non-termination. -/
theorem C3_simulate_selection_diverges_on_general :
    (∀ fuel, simulate_selection fuel
      [{ id := 1, title := "t", category := "GENERAL", score := 7 }] 2 = none) ∧
    get_diverse_top_picks 2
      [{ id := 1, title := "t", category := "GENERAL", score := 7 }] 2 =
      some [{ id := 1, title := "t", category := "GENERAL", score := 7 }] := by
  constructor
  · intro fuel
    have h := simLoop_stuck fuel 2 priority_order
      { selected := [],
        buckets := [("GENERAL",
          [{ id := 1, title := "t", category := "GENERAL", score := 7 }])] }
      (by decide) (by decide)
    simp only [simulate_selection]
    rw [show buildBuckets (scoreSortDesc
        (List.filter (fun a => a.category != "NOISE")
          [{ id := 1, title := "t", category := "GENERAL", score := 7 }])) =
        [("GENERAL",
          [{ id := 1, title := "t", category := "GENERAL", score := 7 }])] from by decide]
    rw [h]
  · decide

/-- Replacing the bucket of one category leaves every other category's
bucket unchanged. -/
lemma blookup_bset_ne (c c2 : String) (v : List DbArticle) (h : c2 ≠ c) :
    ∀ B, blookup (bset B c v) c2 = blookup B c2
  | [] => rfl
  | (c0, items) :: rest => by
    by_cases h0 : (c0 == c) = true
    · have hc0 : c0 = c := by simpa using h0
      have hne : (c0 == c2) = false := by
        simp only [beq_eq_false_iff_ne]
        exact fun hh => h (hc0 ▸ hh).symm
      simp [bset, h0, blookup, List.find?_cons, hne]
    · have h0f : (c0 == c) = false := by simpa using h0
      by_cases h2 : (c0 == c2) = true
      · simp [bset, h0f, blookup, List.find?_cons, h2]
      · have h2f : (c0 == c2) = false := by simpa using h2
        simp only [bset, h0f, Bool.false_eq_true, if_false, blookup,
          List.find?_cons, h2f]
        exact blookup_bset_ne c c2 v h rest

/-- A non-empty bucket is the value of an entry of the bucket list whose
key is the looked-up category. -/
lemma blookup_mem (B : List (String × List DbArticle)) (c : String)
    (h : blookup B c ≠ []) : ∃ p ∈ B, p.1 = c ∧ p.2 = blookup B c := by
  cases hf : B.find? (fun p => p.1 == c) with
  | none => simp [blookup, hf] at h
  | some p =>
    refine ⟨p, List.mem_of_find?_eq_some hf, ?_, by simp [blookup, hf]⟩
    have := List.find?_some hf
    simpa using this

/-- A category with a non-empty bucket makes any(buckets.values()) true. -/
lemma anyBucket_of_blookup (B : List (String × List DbArticle)) (c : String)
    (h : blookup B c ≠ []) : anyBucket B = true := by
  obtain ⟨p, hp, _, hv⟩ := blookup_mem B c h
  have hne : p.2 ≠ [] := by rw [hv]; exact h
  unfold anyBucket
  rw [List.any_eq_true]
  exact ⟨p, hp, by cases hl : p.2 with
    | nil => exact absurd hl hne
    | cons x xs => simp [hl]⟩

/-- Appending an article to its category bucket preserves a per-entry
invariant that the new article satisfies. -/
lemma addToBucket_inv {Q : String → DbArticle → Prop} :
    ∀ (B : List (String × List DbArticle)) (a : DbArticle),
    (∀ p ∈ B, ∀ x ∈ p.2, Q p.1 x) → Q a.category a →
    ∀ p ∈ addToBucket B a, ∀ x ∈ p.2, Q p.1 x
  | [], a, _, ha => by
    intro p hp x hx
    simp only [addToBucket, List.mem_singleton] at hp
    subst hp
    simp only [List.mem_singleton] at hx
    subst hx
    exact ha
  | (c0, items) :: rest, a, hB, ha => by
    intro p hp x hx
    by_cases h0 : (c0 == a.category) = true
    · rw [addToBucket, if_pos h0] at hp
      rcases List.mem_cons.mp hp with hp1 | hp2
      · subst hp1
        rcases List.mem_append.mp hx with hx1 | hx2
        · exact hB (c0, items) (List.mem_cons_self _ _) x hx1
        · have hc0 : c0 = a.category := by simpa using h0
          simp only [List.mem_singleton] at hx2
          subst hx2
          exact hc0 ▸ ha
      · exact hB p (List.mem_cons_of_mem _ hp2) x hx
    · have h0f : (c0 == a.category) = false := by simpa using h0
      rw [addToBucket, h0f] at hp
      simp only [Bool.false_eq_true, if_false] at hp
      rcases List.mem_cons.mp hp with hp1 | hp2
      · subst hp1
        exact hB (c0, items) (List.mem_cons_self _ _) x hx
      · exact addToBucket_inv rest a
          (fun q hq => hB q (List.mem_cons_of_mem _ hq)) ha p hp2 x hx

/-- Every entry of the bucket list built from a candidate pool contains
only articles of the entry's category satisfying any property all
candidates satisfy. -/
lemma buildBuckets_inv {Q : String → DbArticle → Prop} (cands : List DbArticle)
    (hQ : ∀ a ∈ cands, Q a.category a) :
    ∀ p ∈ buildBuckets cands, ∀ x ∈ p.2, Q p.1 x := by
  suffices h : ∀ (l : List DbArticle) (B0 : List (String × List DbArticle)),
      (∀ a ∈ l, Q a.category a) → (∀ p ∈ B0, ∀ x ∈ p.2, Q p.1 x) →
      ∀ p ∈ l.foldl addToBucket B0, ∀ x ∈ p.2, Q p.1 x by
    exact h cands [] hQ (by simp)
  intro l
  induction l with
  | nil =>
    intro B0 _ hB0
    simpa using hB0
  | cons a t ih =>
    intro B0 hl hB0
    simp only [List.foldl_cons]
    exact ih _ (fun x hx => hl x (List.mem_cons_of_mem _ hx))
      (addToBucket_inv B0 a hB0 (hl a (List.mem_cons_self _ _)))

/-- Replacing one bucket preserves the per-entry invariant when the new
bucket value satisfies it. -/
lemma bset_inv {Q : String → DbArticle → Prop} :
    ∀ (B : List (String × List DbArticle)) (c : String) (v : List DbArticle),
    (∀ p ∈ B, ∀ x ∈ p.2, Q p.1 x) → (∀ x ∈ v, Q c x) →
    ∀ p ∈ bset B c v, ∀ x ∈ p.2, Q p.1 x
  | [], _, _, _, _ => by simp [bset]
  | (c0, items) :: rest, c, v, hB, hv => by
    intro p hp x hx
    by_cases h0 : (c0 == c) = true
    · rw [bset, if_pos h0] at hp
      rcases List.mem_cons.mp hp with hp1 | hp2
      · subst hp1
        have hc0 : c0 = c := by simpa using h0
        exact hc0 ▸ hv x hx
      · exact hB p (List.mem_cons_of_mem _ hp2) x hx
    · have h0f : (c0 == c) = false := by simpa using h0
      rw [bset, h0f] at hp
      simp only [Bool.false_eq_true, if_false] at hp
      rcases List.mem_cons.mp hp with hp1 | hp2
      · subst hp1
        exact hB (c0, items) (List.mem_cons_self _ _) x hx
      · exact bset_inv rest c v
          (fun q hq => hB q (List.mem_cons_of_mem _ hq)) hv p hp2 x hx

/-- When every priority category has a non-empty bucket and the limit
leaves room for one pop per category, a single pass pops exactly one
article per priority category, in priority order. -/
lemma passOnce_covers {P : DbArticle → Prop} :
    ∀ (prio : List String) (B : List (String × List DbArticle))
      (done : List DbArticle),
    (∀ c ∈ prio, blookup B c ≠ []) →
    (∀ p ∈ B, ∀ x ∈ p.2, x.category = p.1 ∧ P x) →
    prio.Nodup →
    ∃ picks B2,
      passOnce (done.length + prio.length) prio
          { selected := done, buckets := B } =
        { selected := done ++ picks, buckets := B2 } ∧
      picks.map (fun a => a.category) = prio ∧ (∀ a ∈ picks, P a)
  | [], B, done, _, _, _ => ⟨[], B, by simp [passOnce], rfl, by simp⟩
  | c :: rest, B, done, hne, hinv, hnd => by
    obtain ⟨p, hpB, hpc, hpv⟩ := blookup_mem B c (hne c (List.mem_cons_self _ _))
    cases hlk : blookup B c with
    | nil => exact absurd hlk (hne c (List.mem_cons_self _ _))
    | cons a tail =>
      have hav : ∀ x ∈ a :: tail, x.category = c ∧ P x := by
        intro x hx
        have := hinv p hpB x (by rw [hpv, hlk]; exact hx)
        rwa [hpc] at this
      have hstep :
          passOnce (done.length + (c :: rest).length) (c :: rest)
              { selected := done, buckets := B } =
            passOnce (done.length + (c :: rest).length) rest
              { selected := done ++ [a], buckets := bset B c tail } := by
        simp only [passOnce, List.foldl_cons]
        congr 1
        rw [if_neg (by simp only [List.length_cons]; omega), hlk]
      have hnd2 : rest.Nodup := (List.nodup_cons.mp hnd).2
      have hcd : c ∉ rest := (List.nodup_cons.mp hnd).1
      have hne2 : ∀ c2 ∈ rest, blookup (bset B c tail) c2 ≠ [] := by
        intro c2 hc2
        rw [blookup_bset_ne c c2 tail (fun hh => hcd (hh ▸ hc2)) B]
        exact hne c2 (List.mem_cons_of_mem _ hc2)
      have hinv2 : ∀ p2 ∈ bset B c tail, ∀ x ∈ p2.2, x.category = p2.1 ∧ P x :=
        bset_inv (Q := fun s x => x.category = s ∧ P x) B c tail hinv
          (fun x hx => hav x (List.mem_cons_of_mem _ hx))
      obtain ⟨picks2, B2, hp2, hm2, hP2⟩ :=
        passOnce_covers rest (bset B c tail) (done ++ [a]) hne2 hinv2 hnd2
      refine ⟨a :: picks2, B2, ?_, ?_, ?_⟩
      · rw [hstep]
        have hlen : done.length + (c :: rest).length =
            (done ++ [a]).length + rest.length := by
          simp [List.length_append, List.length_cons]
          omega
        rw [hlen, hp2]
        simp
      · simp only [List.map_cons, hm2]
        rw [(hav a (List.mem_cons_self _ _)).1]
      · intro x hx
        rcases List.mem_cons.mp hx with hx1 | hx2
        · exact hx1 ▸ (hav a (List.mem_cons_self _ _)).2
        · exact hP2 x hx2

/-- C4: on a candidate pool with at least one candidate in every priority
category, the db.py round-robin selector with limit equal to the number
of (non-noise) categories returns exactly one article per category, in
ascending category priority order, and every returned article comes from
the pool. -/
theorem C4_round_robin_one_per_category (cands : List DbArticle)
    (h : ∀ c ∈ priority_order, blookup (buildBuckets cands) c ≠ []) :
    ∃ sel,
      get_diverse_top_picks (cands.length + 2) cands priority_order.length =
        some sel ∧
      sel.map (fun a => a.category) = priority_order ∧ ∀ a ∈ sel, a ∈ cands := by
  have hinv : ∀ p ∈ buildBuckets cands, ∀ x ∈ p.2, x.category = p.1 ∧ x ∈ cands :=
    buildBuckets_inv (Q := fun s x => x.category = s ∧ x ∈ cands) cands
      (fun a ha => ⟨rfl, ha⟩)
  obtain ⟨picks, B2, hpass, hmap, hP⟩ :=
    passOnce_covers (P := fun x => x ∈ cands) priority_order (buildBuckets cands)
      [] h hinv (by decide)
  have hlen : picks.length = priority_order.length := by
    have := congrArg List.length hmap
    simpa using this
  have hW : blookup (buildBuckets cands) "WELFARE" ≠ [] := h "WELFARE" (by decide)
  obtain ⟨p, hpB, hpc, hpv⟩ := blookup_mem _ _ hW
  have hp2 : p.2 ≠ [] := by rw [hpv]; exact hW
  have hcne : cands ≠ [] := by
    cases hl : p.2 with
    | nil => exact absurd hl hp2
    | cons x xs =>
      have hx := (hinv p hpB x (by rw [hl]; exact List.mem_cons_self _ _)).2
      intro hc
      rw [hc] at hx
      simp at hx
  have hE : cands.isEmpty = false := by
    cases cands with
    | nil => exact absurd rfl hcne
    | cons a t => rfl
  have hpass0 : passOnce priority_order.length priority_order
      { selected := [], buckets := buildBuckets cands } =
      { selected := picks, buckets := B2 } := by
    have h0 : (([] : List DbArticle)).length + priority_order.length =
        priority_order.length := by simp
    rw [h0] at hpass
    simpa using hpass
  have hguard : (decide ((([] : List DbArticle)).length < priority_order.length) &&
      anyBucket (buildBuckets cands)) = true := by
    rw [anyBucket_of_blookup _ "WELFARE" hW]
    decide
  have hloop : dbLoop (cands.length + 2) priority_order.length priority_order
      { selected := [], buckets := buildBuckets cands } =
      some { selected := picks, buckets := B2 } := by
    rw [show cands.length + 2 = (cands.length + 1) + 1 from rfl, dbLoop, hguard]
    simp only [if_true, hpass0]
    by_cases hb : anyBucketOn priority_order B2 = true
    · rw [if_neg (by simp [hb])]
      rw [show cands.length + 1 = cands.length + 1 from rfl, dbLoop]
      rw [if_neg]
      simp only [Bool.and_eq_true, decide_eq_true_eq]
      intro hcon
      rw [hlen] at hcon
      exact absurd hcon.1 (lt_irrefl _)
    · rw [if_pos (by simp [Bool.not_eq_true] at hb; simp [hb])]
  have hback : backfill priority_order.length
      { selected := picks, buckets := B2 } = picks := by
    unfold backfill
    rw [if_neg]
    simp only [hlen]
    exact lt_irrefl _
  refine ⟨picks, ?_, hmap, hP⟩
  unfold get_diverse_top_picks
  rw [if_neg (by rw [hE]; simp)]
  rw [hloop]
  simp [hback]

/-- Witness for C4: a pool with one candidate per category, limit 6. -/
theorem C4_round_robin_one_per_category_witness :
    (∀ c ∈ priority_order, blookup (buildBuckets pool6W) c ≠ []) ∧
    (∃ sel,
      get_diverse_top_picks (pool6W.length + 2) pool6W priority_order.length =
        some sel ∧
      sel.map (fun a => a.category) = priority_order ∧ ∀ a ∈ sel, a ∈ pool6W) :=
  ⟨by decide, C4_round_robin_one_per_category pool6W (by decide)⟩

/-- Saving a single non-noise article with a non-empty fingerprint
inserts it exactly when its fingerprint is not already stored. -/
lemma save_single (store : List String) (a : RawArticle)
    (hc : a.category ≠ some "NOISE") (hh : a.content_hash ≠ "") :
    save_articles_batch store [a] true =
      if a.content_hash ∈ store then ([], store)
      else ([a], store ++ [a.content_hash]) := by
  have hcb : (a.category != some "NOISE") = true := by simpa [bne_iff_ne] using hc
  have hhb : (a.content_hash != "") = true := by simpa [bne_iff_ne] using hh
  by_cases hmem : a.content_hash ∈ store
  · rw [if_pos hmem]
    simp [save_articles_batch, check_existing_hashes, hcb, hhb, hmem]
  · rw [if_neg hmem]
    simp [save_articles_batch, check_existing_hashes, hcb, hhb, hmem]

/-- C8: the content fingerprint depends only on title and link (two
articles differing only in summary share it), and deduplication across
two runs is idempotent: a fingerprint absent from the store is inserted
by the first run and filtered out by the second run's existence check,
so the pair is inserted exactly once. -/
theorem C8_fingerprint_dedup_idempotent (sha : String → String)
    (t l s1 s2 : String) (store : List String)
    (hnew : sha (t ++ l) ∉ store) (hne : sha (t ++ l) ≠ "") :
    (parse_entry sha t l s1).content_hash = (parse_entry sha t l s2).content_hash ∧
    (save_articles_batch store [parse_entry sha t l s1] true).1 =
      [parse_entry sha t l s1] ∧
    (save_articles_batch
        (save_articles_batch store [parse_entry sha t l s1] true).2
        [parse_entry sha t l s2] true).1 = [] := by
  have h1 := save_single store (parse_entry sha t l s1) (by simp [parse_entry]) hne
  rw [if_neg (show (parse_entry sha t l s1).content_hash ∉ store from hnew)] at h1
  refine ⟨rfl, by rw [h1], ?_⟩
  rw [h1]
  have h2 := save_single (store ++ [(parse_entry sha t l s1).content_hash])
    (parse_entry sha t l s2) (by simp [parse_entry]) hne
  rw [if_pos (show (parse_entry sha t l s2).content_hash ∈
      store ++ [(parse_entry sha t l s1).content_hash] from by
    simp [parse_entry, generate_content_hash])] at h2
  show (save_articles_batch (store ++ [(parse_entry sha t l s1).content_hash])
    [parse_entry sha t l s2] true).1 = []
  rw [h2]

/-- Witness for C8 at a concrete hash function, pair and empty store. -/
theorem C8_fingerprint_dedup_idempotent_witness :
    ((fun s => "h" ++ s) ("T" ++ "L") ∉ ([] : List String)) ∧
    ((fun s => "h" ++ s) ("T" ++ "L") ≠ "") ∧
    (save_articles_batch [] [parse_entry (fun s => "h" ++ s) "T" "L" "x"] true).1 =
      [parse_entry (fun s => "h" ++ s) "T" "L" "x"] ∧
    (save_articles_batch
        (save_articles_batch [] [parse_entry (fun s => "h" ++ s) "T" "L" "x"] true).2
        [parse_entry (fun s => "h" ++ s) "T" "L" "y"] true).1 = [] :=
  ⟨by simp, by decide,
   (C8_fingerprint_dedup_idempotent (fun s => "h" ++ s) "T" "L" "x" "y" []
     (by simp) (by decide)).2.1,
   (C8_fingerprint_dedup_idempotent (fun s => "h" ++ s) "T" "L" "x" "y" []
     (by simp) (by decide)).2.2⟩

/-- C10: the fingerprint hashes the separator-free concatenation of
title and link, so distinct pairs with equal concatenations (for example
ab/c and a/bc) collide for every digest function, and the in-batch
deduplication of parse_feeds then drops the later of two such distinct
articles. -/
theorem C10_concat_collision (sha : String → String) (s1 s2 : String) :
    ("ab", "c") ≠ (("a", "bc") : String × String) ∧
    generate_content_hash sha "ab" "c" = generate_content_hash sha "a" "bc" ∧
    remove_duplicates [parse_entry sha "ab" "c" s1, parse_entry sha "a" "bc" s2] =
      [parse_entry sha "ab" "c" s1] := by
  have hcol : (parse_entry sha "a" "bc" s2).content_hash =
      (parse_entry sha "ab" "c" s1).content_hash :=
    congrArg sha (by decide)
  refine ⟨by decide, congrArg sha (by decide), ?_⟩
  simp [remove_duplicates, dedupSeen, parse_entry] at hcol ⊢
  simp [hcol]

/-- Rounding -50.0 to two decimals gives -50 (rational scorer). -/
lemma round2_neg50 : round2 (-50) = -50 := by
  unfold round2
  rw [show ((-50 : ℚ) * 100) = ((-5000 : ℤ) : ℚ) by norm_num, round_intCast]
  norm_num

/-- Rounding -50.0 to two decimals gives -50 (real scorer). -/
lemma round2R_neg50 : round2R (-50) = -50 := by
  unfold round2R
  rw [show ((-50 : ℝ) * 100) = ((-5000 : ℤ) : ℝ) by norm_num, round_intCast]
  norm_num

/-- The category component of the embedding scorer is the best anchor. -/
lemma categorize_by_embedding_fst (anchors : List (String × Emb)) (emb : Emb) :
    (categorize_by_embedding anchors emb).1 = (bestAnchor anchors emb).1 := by
  simp only [categorize_by_embedding]
  split <;> rfl

/-- The category component of the regex scorer is the classify winner. -/
lemma categorize_by_regex_fst (scores : List (String × ℕ)) :
    (categorize_by_regex scores).1 = (classify scores).1 := by
  simp only [categorize_by_regex]
  split <;> rfl

/-- C2: whenever the winning category is NOISE, both the embedding-based
scorer and the pattern-matching scorer assign score exactly -50,
regardless of similarity or confidence magnitude. -/
theorem C2_noise_scores_fixed (anchors : List (String × Emb)) (emb : Emb)
    (scores : List (String × ℕ))
    (h1 : (categorize_by_embedding anchors emb).1 = "NOISE")
    (h2 : (categorize_by_regex scores).1 = "NOISE") :
    (categorize_by_embedding anchors emb).2.1 = -50 ∧
    (categorize_by_regex scores).2 = -50 := by
  constructor
  · rw [categorize_by_embedding_fst] at h1
    have hb : ((bestAnchor anchors emb).1 == "NOISE") = true := by simp [h1]
    simp only [categorize_by_embedding, hb, if_true]
    exact round2R_neg50
  · rw [categorize_by_regex_fst] at h2
    have hb : ((classify scores).1 == "NOISE") = true := by simp [h2]
    simp only [categorize_by_regex, hb, if_true]
    exact round2_neg50

/-- The cosine similarity of the one-dimensional unit vector with itself
evaluates to 1. -/
lemma cos_one_one : cosine_similarity [1] [1] = 1 := by
  unfold cosine_similarity
  have hn : normSq [1] = 1 := by simp [normSq, dotQ]
  have hd : dotQ [1] [1] = 1 := by simp [dotQ]
  rw [hn, hd]
  norm_num [Real.sqrt_one]

/-- On a catalog holding only the NOISE anchor, the best-anchor loop
elects NOISE. -/
lemma bestAnchor_noise : bestAnchor [("NOISE", [1])] [1] = ("NOISE", 1) := by
  unfold bestAnchor
  simp only [List.foldl_cons, List.foldl_nil]
  rw [cos_one_one]
  rw [if_pos (by norm_num)]

/-- Witness for C2: concrete NOISE wins on both scoring paths. -/
theorem C2_noise_scores_fixed_witness :
    ((categorize_by_embedding [("NOISE", [1])] [1]).1 = "NOISE") ∧
    ((categorize_by_regex [("WELFARE", 0), ("ALERTS", 0), ("WAR_GEO", 0),
        ("TECH_SCI", 0), ("FINANCE", 0), ("POLITICS", 0), ("NOISE", 2)]).1 =
      "NOISE") ∧
    ((categorize_by_embedding [("NOISE", [1])] [1]).2.1 = -50) ∧
    ((categorize_by_regex [("WELFARE", 0), ("ALERTS", 0), ("WAR_GEO", 0),
        ("TECH_SCI", 0), ("FINANCE", 0), ("POLITICS", 0), ("NOISE", 2)]).2 =
      -50) := by
  have h1 : (categorize_by_embedding [("NOISE", [1])] [1]).1 = "NOISE" := by
    rw [categorize_by_embedding_fst, bestAnchor_noise]
  have h2 : (categorize_by_regex [("WELFARE", 0), ("ALERTS", 0), ("WAR_GEO", 0),
      ("TECH_SCI", 0), ("FINANCE", 0), ("POLITICS", 0), ("NOISE", 2)]).1 =
      "NOISE" := by
    rw [categorize_by_regex_fst]
    decide
  exact ⟨h1, h2, (C2_noise_scores_fixed _ _ _ h1 h2).1,
    (C2_noise_scores_fixed _ _ _ h1 h2).2⟩

/-- The winner of the Python max fold over an association list is the
starting accumulator or one of the list entries. -/
lemma bestIn_fold_mem :
    ∀ (l : List (String × ℕ)) (acc : Option (String × ℕ)) (p : String × ℕ),
    l.foldl
      (fun acc p =>
        match acc with
        | none => some p
        | some q => if p.2 > q.2 then some p else some q) acc = some p →
    acc = some p ∨ p ∈ l
  | [], acc, p, h => Or.inl h
  | a :: t, acc, p, h => by
    rcases bestIn_fold_mem t _ p h with h1 | h2
    · match acc with
      | none =>
        simp only at h1
        exact Or.inr (by rw [← Option.some_inj.mp h1]; exact List.mem_cons_self _ _)
      | some q =>
        simp only at h1
        by_cases hgt : a.2 > q.2
        · rw [if_pos hgt] at h1
          exact Or.inr (by rw [← Option.some_inj.mp h1]; exact List.mem_cons_self _ _)
        · rw [if_neg hgt] at h1
          exact Or.inl h1
    · exact Or.inr (List.mem_cons_of_mem _ h2)

/-- The classify winner is GENERAL or one of the scored categories. -/
lemma classify_fst_mem (scores : List (String × ℕ)) :
    (classify scores).1 ∈ "GENERAL" :: scores.map Prod.fst := by
  unfold classify
  split
  · exact List.mem_cons_self _ _
  · rename_i c n hb
    split
    · rcases bestIn_fold_mem scores none (c, n) hb with h1 | h2
      · exact absurd h1 (by simp)
      · exact List.mem_cons_of_mem _ (List.mem_map_of_mem Prod.fst h2)
    · exact List.mem_cons_self _ _

/-- The best-anchor winner is the GENERAL default or an anchor key. -/
lemma bestAnchor_fst_mem (anchors : List (String × Emb)) (emb : Emb) :
    (bestAnchor anchors emb).1 ∈ "GENERAL" :: anchors.map Prod.fst := by
  unfold bestAnchor
  suffices h : ∀ (l : List (String × Emb)) (acc : String × ℝ),
      (l.foldl
        (fun acc p =>
          if cosine_similarity emb p.2 > acc.2 then (p.1, cosine_similarity emb p.2)
          else acc) acc).1 = acc.1 ∨
      (l.foldl
        (fun acc p =>
          if cosine_similarity emb p.2 > acc.2 then (p.1, cosine_similarity emb p.2)
          else acc) acc).1 ∈ l.map Prod.fst by
    rcases h anchors ("GENERAL", -1) with h1 | h2
    · rw [h1]; exact List.mem_cons_self _ _
    · exact List.mem_cons_of_mem _ h2
  intro l
  induction l with
  | nil => intro acc; exact Or.inl rfl
  | cons a t ih =>
    intro acc
    simp only [List.foldl_cons]
    by_cases hgt : cosine_similarity emb a.2 > acc.2
    · rw [if_pos hgt]
      rcases ih (a.1, cosine_similarity emb a.2) with h1 | h2
      · exact Or.inr (by rw [h1]; exact List.mem_cons_self _ _)
      · exact Or.inr (List.mem_cons_of_mem _ h2)
    · rw [if_neg hgt]
      rcases ih acc with h1 | h2
      · exact Or.inl h1
      · exact Or.inr (List.mem_cons_of_mem _ h2)

/-- The category assigned by the per-article step is the GENERAL
default, an anchor-dict key, or a classify winner. -/
lemma classifyArticle_category (mc : String → String → ℕ)
    (anchors : List (String × Emb)) (embeddings : Option (List Emb))
    (ia : ℕ × ArtIn) :
    (classifyArticle mc anchors embeddings ia).category ∈
      "GENERAL" :: anchors.map Prod.fst ∨
    (classifyArticle mc anchors embeddings ia).category ∈
      "GENERAL" :: REGEX_FALLBACK_CATEGORIES := by
  have hreg : (categorize_by_regex (regexScores mc (artText ia.2))).1 ∈
      "GENERAL" :: REGEX_FALLBACK_CATEGORIES := by
    have h := classify_fst_mem (regexScores mc (artText ia.2))
    rw [← categorize_by_regex_fst] at h
    simpa [regexScores, List.map_map, Function.comp] using h
  cases embeddings with
  | none => exact Or.inr hreg
  | some es =>
    by_cases hlt : ia.1 < es.length
    · left
      have h := bestAnchor_fst_mem anchors (es.getD ia.1 [])
      rw [← categorize_by_embedding_fst] at h
      simpa [classifyArticle, hlt] using h
    · right
      simpa [classifyArticle, hlt] using hreg

/-- Every output category of process_articles is the GENERAL default, an
anchor-dict key, or a REGEX_FALLBACK key. -/
lemma process_articles_category (cfC2 : Bool)
    (cfReq2 loGen2 : List String → Option (List Emb))
    (mc : String → String → ℕ) (st : EngineState) (arts : List ArtIn)
    (out : ArtOut) (hout : out ∈ process_articles cfC2 cfReq2 loGen2 mc st arts) :
    out.category ∈ "GENERAL" :: ((st.anchorEmbeddings.getD []).map Prod.fst) ∨
    out.category ∈ "GENERAL" :: REGEX_FALLBACK_CATEGORIES := by
  unfold process_articles at hout
  by_cases he : arts.isEmpty
  · rw [if_pos he] at hout
    exact absurd hout (List.not_mem_nil _)
  · rw [if_neg he] at hout
    obtain ⟨ia, _, rfl⟩ := List.mem_map.mp hout
    exact classifyArticle_category mc _ _ ia

/-- A text with zero pattern matches in every category classifies as the
GENERAL default with confidence 0.3. -/
lemma classify_zero (mc : String → String → ℕ) (text : String)
    (hz : ∀ c ∈ REGEX_FALLBACK_CATEGORIES, mc text c = 0) :
    classify (regexScores mc text) = ("GENERAL", 3 / 10) := by
  have hs : regexScores mc text =
      REGEX_FALLBACK_CATEGORIES.map (fun c => (c, 0)) := by
    unfold regexScores
    exact List.map_congr_left (fun c hc => by rw [hz c hc])
  rw [hs]
  rfl

/-- A text with zero pattern matches scores 5 + 0 + 0.3 * 5 = 6.5 on the
regex path, under the GENERAL category. -/
lemma categorize_by_regex_zero (mc : String → String → ℕ) (text : String)
    (hz : ∀ c ∈ REGEX_FALLBACK_CATEGORIES, mc text c = 0) :
    categorize_by_regex (regexScores mc text) = ("GENERAL", 13 / 2) := by
  unfold categorize_by_regex
  rw [classify_zero mc text hz]
  have hw : anchorWeight "GENERAL" = 0 := rfl
  simp only [hw]
  rw [if_neg (by decide)]
  have : round2 (5 + 0 + 3 / 10 * 5) = 13 / 2 := by
    unfold round2
    rw [show ((5 + 0 + 3 / 10 * 5 : ℚ) * 100) = ((650 : ℤ) : ℚ) by norm_num,
      round_intCast]
    norm_num
  rw [this]

/-- The anchor dict built at startup is either absent or keyed by a
prefix of the CATEGORY_ANCHORS taxonomy. -/
lemma initialize_anchors_keys (cfC : Bool)
    (cfReq loGen : List String → Option (List Emb)) :
    (initialize_anchors cfC cfReq loGen).anchorEmbeddings = none ∨
    ∃ es, (initialize_anchors cfC cfReq loGen).anchorEmbeddings =
      some ((CATEGORY_ANCHORS.map (fun p => p.1)).zip es) := by
  unfold initialize_anchors
  by_cases h1 : optNonempty (generate_embeddings cfC cfReq
      (CATEGORY_ANCHORS.map (fun p => p.2.desc))) = true
  · rw [if_pos h1]
    exact Or.inr ⟨_, rfl⟩
  · rw [if_neg h1]
    by_cases h2 : optNonempty (loGen (CATEGORY_ANCHORS.map (fun p => p.2.desc))) = true
    · rw [if_pos h2]
      exact Or.inr ⟨_, rfl⟩
    · rw [if_neg h2]
      exact Or.inl rfl

/-- C9: after classification every article's category lies in the fixed
enumerated set (the CATEGORY_ANCHORS taxonomy plus GENERAL), and a text
matching no pattern in any category receives the default GENERAL
category with the constant low-confidence 0.3 and constant score 6.5. -/
theorem C9_category_always_in_fixed_set (cfC cfC2 : Bool)
    (cfReq loGen cfReq2 loGen2 : List String → Option (List Emb))
    (mc : String → String → ℕ) (arts : List ArtIn) (out : ArtOut)
    (hout : out ∈ process_articles cfC2 cfReq2 loGen2 mc
      (initialize_anchors cfC cfReq loGen) arts)
    (mc2 : String → String → ℕ) (text : String)
    (hz : ∀ c ∈ REGEX_FALLBACK_CATEGORIES, mc2 text c = 0) :
    out.category ∈ fixedCategories ∧
    classify (regexScores mc2 text) = ("GENERAL", 3 / 10) ∧
    categorize_by_regex (regexScores mc2 text) = ("GENERAL", 13 / 2) := by
  refine ⟨?_, classify_zero mc2 text hz, categorize_by_regex_zero mc2 text hz⟩
  rcases process_articles_category cfC2 cfReq2 loGen2 mc _ arts out hout with h | h
  · rcases initialize_anchors_keys cfC cfReq loGen with hk | ⟨es, hk⟩
    · rw [hk] at h
      simp only [Option.getD_none, List.map_nil] at h
      rw [List.mem_singleton] at h
      rw [h]
      decide
    · rw [hk] at h
      simp only [Option.getD_some] at h
      rcases List.mem_cons.mp h with h1 | h2
      · rw [h1]; decide
      · obtain ⟨pr, hpr, hfst⟩ := List.mem_map.mp h2
        have hmem := (List.of_mem_zip hpr).1
        rw [← hfst]
        unfold fixedCategories
        exact List.mem_append.mpr (Or.inl hmem)
  · have hsub : ∀ c ∈ "GENERAL" :: REGEX_FALLBACK_CATEGORIES,
        c ∈ fixedCategories := by decide
    exact hsub _ h

/-- Evaluation of process_articles on the regex-only engine state for a
one-article batch with zero pattern matches. -/
lemma process_regex_only_eval :
    process_articles true failOracle failOracle mcZero regexOnlyState [artInW] =
      [artOutGeneralW] := by
  have hz : ∀ c ∈ REGEX_FALLBACK_CATEGORIES, mcZero (artText artInW) c = 0 :=
    fun c _ => rfl
  have hr := categorize_by_regex_zero mcZero (artText artInW) hz
  simp only [artText, artInW] at hr
  unfold process_articles
  rw [if_neg (by decide)]
  have hbe : batchEmbeddings true failOracle failOracle regexOnlyState
      ([artInW].map artText) = none := by
    unfold batchEmbeddings
    rw [if_neg (by decide)]
  rw [hbe]
  show [classifyArticle mcZero (regexOnlyState.anchorEmbeddings.getD []) none
      (0, artInW)] = [artOutGeneralW]
  simp only [classifyArticle, hr, artOutGeneralW, artInW, artText]

/-- Witness for C9 on the regex-only path with a zero-match text. -/
theorem C9_category_always_in_fixed_set_witness :
    artOutGeneralW.category ∈ fixedCategories ∧
    classify (regexScores mcZero "x") = ("GENERAL", 3 / 10) ∧
    categorize_by_regex (regexScores mcZero "x") = ("GENERAL", 13 / 2) := by
  have hst : initialize_anchors true failOracle failOracle = regexOnlyState := rfl
  have hout : artOutGeneralW ∈ process_articles true failOracle failOracle mcZero
      (initialize_anchors true failOracle failOracle) [artInW] := by
    rw [hst, process_regex_only_eval]
    exact List.mem_singleton.mpr rfl
  exact C9_category_always_in_fixed_set true true failOracle failOracle
    failOracle failOracle mcZero [artInW] artOutGeneralW hout mcZero "x"
    (fun c _ => rfl)

/-- With no anchor dict, no embedding batch is attempted. -/
lemma batchEmbeddings_none (cfC : Bool)
    (cfReq loGen : List String → Option (List Emb)) (st : EngineState)
    (hst : st.anchorEmbeddings = none) (texts : List String) :
    batchEmbeddings cfC cfReq loGen st texts = none := by
  simp [batchEmbeddings, hst, optNonempty]

/-- With no anchor dict, the classification output does not depend on
either embedding provider: no embedding attempt is made. -/
lemma process_articles_provider_independent (cfC2 cfC3 : Bool)
    (cfReq2 loGen2 cfReq3 loGen3 : List String → Option (List Emb))
    (mc : String → String → ℕ) (st : EngineState)
    (hst : st.anchorEmbeddings = none) (arts : List ArtIn) :
    process_articles cfC2 cfReq2 loGen2 mc st arts =
      process_articles cfC3 cfReq3 loGen3 mc st arts := by
  unfold process_articles
  rw [batchEmbeddings_none cfC2 cfReq2 loGen2 st hst,
    batchEmbeddings_none cfC3 cfReq3 loGen3 st hst]

/-- With no anchor dict, every article is classified by the regex path. -/
lemma process_articles_method_regex (cfC2 : Bool)
    (cfReq2 loGen2 : List String → Option (List Emb))
    (mc : String → String → ℕ) (st : EngineState)
    (hst : st.anchorEmbeddings = none) (arts : List ArtIn) (out : ArtOut)
    (hout : out ∈ process_articles cfC2 cfReq2 loGen2 mc st arts) :
    out.method = "regex" := by
  unfold process_articles at hout
  by_cases he : arts.isEmpty
  · rw [if_pos he] at hout
    exact absurd hout (List.not_mem_nil _)
  · rw [if_neg he, batchEmbeddings_none cfC2 cfReq2 loGen2 st hst] at hout
    obtain ⟨ia, _, rfl⟩ := List.mem_map.mp hout
    rfl

/-- C5: when anchor initialization fails for both provider tiers at
startup, the engine is in the regex-only state; every later batch is
classified by pattern matching with no embedding attempt (the output
does not depend on either provider oracle), and a zero-match text still
receives the GENERAL category rather than an error. -/
theorem C5_regex_only_commitment (cfC : Bool)
    (cfReq loGen : List String → Option (List Emb))
    (h1 : optNonempty (generate_embeddings cfC cfReq
      (CATEGORY_ANCHORS.map (fun p => p.2.desc))) = false)
    (h2 : optNonempty (loGen (CATEGORY_ANCHORS.map (fun p => p.2.desc))) = false)
    (cfC2 cfC3 : Bool)
    (cfReq2 loGen2 cfReq3 loGen3 : List String → Option (List Emb))
    (mc : String → String → ℕ) (arts : List ArtIn) (out : ArtOut)
    (hout : out ∈ process_articles cfC2 cfReq2 loGen2 mc
      (initialize_anchors cfC cfReq loGen) arts)
    (a : ArtIn)
    (hz : ∀ c ∈ REGEX_FALLBACK_CATEGORIES, mc (artText a) c = 0) :
    initialize_anchors cfC cfReq loGen = regexOnlyState ∧
    process_articles cfC2 cfReq2 loGen2 mc
        (initialize_anchors cfC cfReq loGen) arts =
      process_articles cfC3 cfReq3 loGen3 mc
        (initialize_anchors cfC cfReq loGen) arts ∧
    out.method = "regex" ∧
    (process_articles cfC2 cfReq2 loGen2 mc
        (initialize_anchors cfC cfReq loGen) [a]).map (fun o => o.category) =
      ["GENERAL"] := by
  have hst : initialize_anchors cfC cfReq loGen = regexOnlyState := by
    unfold initialize_anchors
    rw [if_neg (by rw [h1]; simp), if_neg (by rw [h2]; simp)]
    rfl
  have hnone : (initialize_anchors cfC cfReq loGen).anchorEmbeddings = none := by
    rw [hst]; rfl
  refine ⟨hst, process_articles_provider_independent cfC2 cfC3 cfReq2 loGen2
    cfReq3 loGen3 mc _ hnone arts,
    process_articles_method_regex cfC2 cfReq2 loGen2 mc _ hnone arts out hout, ?_⟩
  rw [hst]
  unfold process_articles
  rw [if_neg (by simp), batchEmbeddings_none cfC2 cfReq2 loGen2 _ rfl]
  show [(classifyArticle mc (regexOnlyState.anchorEmbeddings.getD []) none
      (0, a)).category] = ["GENERAL"]
  have hr := categorize_by_regex_zero mc (artText a) hz
  simp only [classifyArticle, hr]

/-- Witness for C5: both providers fail at startup, one zero-match
article is classified. -/
theorem C5_regex_only_commitment_witness :
    initialize_anchors true failOracle failOracle = regexOnlyState ∧
    process_articles true failOracle failOracle mcZero
        (initialize_anchors true failOracle failOracle) [artInW] =
      process_articles false failOracle failOracle mcZero
        (initialize_anchors true failOracle failOracle) [artInW] ∧
    artOutGeneralW.method = "regex" ∧
    (process_articles true failOracle failOracle mcZero
        (initialize_anchors true failOracle failOracle) [artInW]).map
      (fun o => o.category) = ["GENERAL"] := by
  have hout : artOutGeneralW ∈ process_articles true failOracle failOracle mcZero
      (initialize_anchors true failOracle failOracle) [artInW] := by
    rw [show initialize_anchors true failOracle failOracle = regexOnlyState
      from rfl, process_regex_only_eval]
    exact List.mem_singleton.mpr rfl
  exact C5_regex_only_commitment true failOracle failOracle rfl rfl true false
    failOracle failOracle failOracle failOracle mcZero [artInW] artOutGeneralW
    hout artInW (fun c _ => rfl)

/-- A failed chunk anywhere in the list fails the whole accumulation. -/
lemma mapChunks_none (req : List String → Option (List Emb)) :
    ∀ (cs : List (List String)), (∃ c ∈ cs, req c = none) →
    mapChunks req cs = none
  | [], h => absurd h (by simp)
  | c :: cs, h => by
    obtain ⟨d, hd, hreq⟩ := h
    rcases List.mem_cons.mp hd with rfl | hmem
    · simp [mapChunks, hreq]
    · cases hr : req c with
      | none => simp [mapChunks, hr]
      | some es => simp [mapChunks, hr, mapChunks_none req cs ⟨d, hmem, hreq⟩]

/-- The method tag assigned when the batch produced an embedding list
depends only on whether the article index has an entry. -/
lemma classifyArticle_method_some (mc : String → String → ℕ)
    (anchors : List (String × Emb)) (es : List Emb) (ia : ℕ × ArtIn) :
    (classifyArticle mc anchors (some es) ia).method =
      if ia.1 < es.length then "embedding" else "regex" := by
  simp only [classifyArticle]
  split <;> rfl

/-- C1 counterexample: a provider returning two vectors for three texts
makes the cascade return a partial two-vector list (neither a full list
nor a failure signal), and the classifier then uses the embedding path
for the first two articles and pattern matching only for the third, not
for the whole batch. -/
theorem C1_counterexample_partial_batch :
    generate_embeddings true (fun _ => some [[1], [1]]) ["a", "b", "c"] =
      some [[1], [1]] ∧
    ([[1], [1]] : List Emb).length ≠ (["a", "b", "c"] : List String).length ∧
    (process_articles true (fun _ => some [[1], [1]]) failOracle mcZero
        { anchorEmbeddings := some [("WELFARE", [1])],
          anchorMethod := .cloudflare }
        [{ title := "a", summary := "" }, { title := "b", summary := "" },
         { title := "c", summary := "" }]).map (fun o => o.method) =
      ["embedding", "embedding", "regex"] := by
  refine ⟨rfl, by decide, ?_⟩
  rfl

/-- C1 amended: the cascade returns a definite failure whenever any
chunk request fails, but it does not validate that a provider returned
one vector per input: a short reply yields a partial list, and the
classifier then falls back to pattern matching exactly for the articles
with index beyond the returned vectors, not for the whole batch. -/
theorem C1_amended_chunk_failure_and_partial (req : List String → Option (List Emb))
    (texts : List String)
    (hfail : ∃ c ∈ chunkList CF_BATCH_SIZE texts, req c = none)
    (cfC2 : Bool) (cfReq2 loGen2 : List String → Option (List Emb))
    (mc : String → String → ℕ) (ancs : List (String × Emb))
    (arts : List ArtIn) (es : List Emb)
    (hsome : batchEmbeddings cfC2 cfReq2 loGen2
      { anchorEmbeddings := some ancs, anchorMethod := .cloudflare }
      (arts.map artText) = some es) :
    generate_embeddings true req texts = none ∧
    (process_articles cfC2 cfReq2 loGen2 mc
        { anchorEmbeddings := some ancs, anchorMethod := .cloudflare } arts).map
      (fun o => o.method) =
      (List.range arts.length).map
        (fun i => if i < es.length then "embedding" else "regex") := by
  constructor
  · cases he : texts.isEmpty with
    | true =>
      exfalso
      obtain ⟨c, hc, -⟩ := hfail
      rw [List.isEmpty_iff] at he
      rw [he] at hc
      simp [chunkList, chunkListAux] at hc
    | false =>
      unfold generate_embeddings
      rw [if_neg (by simp [he])]
      exact mapChunks_none req _ hfail
  · by_cases he : arts.isEmpty
    · rw [List.isEmpty_iff] at he
      subst he
      simp [process_articles]
    · unfold process_articles
      rw [if_neg he, hsome]
      apply List.ext_getElem
      · simp
      · intro i hi1 hi2
        simp only [List.getElem_map, List.getElem_enum, List.getElem_range]
        rw [classifyArticle_method_some]

/-- Witness for C1 amended: a failing chunk and a short provider reply. -/
theorem C1_amended_chunk_failure_and_partial_witness :
    generate_embeddings true failOracle ["a"] = none ∧
    (process_articles true (fun _ => some [[1], [1]]) failOracle mcZero
        { anchorEmbeddings := some [("WELFARE", [1])],
          anchorMethod := .cloudflare }
        [{ title := "a", summary := "" }, { title := "b", summary := "" },
         { title := "c", summary := "" }]).map (fun o => o.method) =
      (List.range
        ([{ title := "a", summary := "" }, { title := "b", summary := "" },
          { title := "c", summary := "" }] : List ArtIn).length).map
        (fun i => if i < ([[1], [1]] : List Emb).length then "embedding"
          else "regex") :=
  C1_amended_chunk_failure_and_partial failOracle ["a"]
    ⟨["a"], by decide, rfl⟩ true (fun _ => some [[1], [1]]) failOracle mcZero
    [("WELFARE", [1])]
    [{ title := "a", summary := "" }, { title := "b", summary := "" },
     { title := "c", summary := "" }] [[1], [1]] rfl

/-- Every request consumes at least one attempt. -/
lemma make_request_attempts_pos : ∀ (tr : List CFResponse) (a : ℕ),
    1 ≤ (make_request tr a).2.1
  | [], _ => le_refl 1
  | r :: rest, a => by
    cases r with
    | rateLimited =>
      by_cases h : a < CF_MAX_RETRIES
      · simp only [make_request, if_pos h]
        omega
      · simp only [make_request, if_neg h]
        exact le_refl 1
    | ok es => exact le_refl 1
    | malformed => exact le_refl 1
    | httpError code => exact le_refl 1
    | timeout => exact le_refl 1
    | exn => exact le_refl 1

/-- Attempts are bounded by the retry budget remaining from the starting
attempt number. -/
lemma make_request_attempts_le (tr : List CFResponse) : ∀ (a : ℕ),
    1 ≤ a → a ≤ CF_MAX_RETRIES →
    (make_request tr a).2.1 ≤ CF_MAX_RETRIES - a + 1 := by
  induction tr with
  | nil => intro a _ _; simp [make_request]
  | cons r rest ih =>
    intro a h1 h2
    cases r with
    | rateLimited =>
      by_cases h : a < CF_MAX_RETRIES
      · have h5 := ih (a + 1) (by omega) (by omega)
        simp only [make_request, if_pos h]
        show (make_request rest (a + 1)).2.1 + 1 ≤ CF_MAX_RETRIES - a + 1
        omega
      · simp only [make_request, if_neg h]
        simp
    | ok es => simp [make_request]
    | malformed => simp [make_request]
    | httpError code => simp [make_request]
    | timeout => simp [make_request]
    | exn => simp [make_request]

/-- A permanently rate-limited chunk ends in failure. -/
lemma make_request_rate_limited_none : ∀ (tr : List CFResponse) (a : ℕ),
    (∀ r ∈ tr, r = CFResponse.rateLimited) → (make_request tr a).1 = none
  | [], _, _ => rfl
  | r :: rest, a, h => by
    rw [h r (List.mem_cons_self _ _)]
    by_cases hlt : a < CF_MAX_RETRIES
    · simp only [make_request, if_pos hlt]
      exact make_request_rate_limited_none rest (a + 1)
        (fun x hx => h x (List.mem_cons_of_mem _ hx))
    · simp only [make_request, if_neg hlt]

/-- Closed form of the accumulated exponential backoff: the waits before
attempts 2..k sum to delay * 2 ^ start * (2 ^ (k - 1) - 1). -/
lemma make_request_waited : ∀ (tr : List CFResponse) (a : ℕ),
    (make_request tr a).2.2 =
      CF_RETRY_DELAY * 2 ^ a * (2 ^ ((make_request tr a).2.1 - 1) - 1)
  | [], a => by simp [make_request]
  | r :: rest, a => by
    cases r with
    | rateLimited =>
      by_cases h : a < CF_MAX_RETRIES
      · simp only [make_request, if_pos h]
        have hk := make_request_attempts_pos rest (a + 1)
        obtain ⟨m, hm⟩ : ∃ m, (make_request rest (a + 1)).2.1 = m + 1 :=
          ⟨(make_request rest (a + 1)).2.1 - 1, by omega⟩
        have hw := make_request_waited rest (a + 1)
        rw [hm] at hw
        simp only [hw, hm, Nat.add_sub_cancel]
        simp [pow_succ]
        ring
      · simp [make_request, if_neg h]
    | ok es => simp [make_request]
    | malformed => simp [make_request]
    | httpError code => simp [make_request]
    | timeout => simp [make_request]
    | exn => simp [make_request]

/-- C6: per chunk, rate-limit responses are retried at most a bounded
number of attempts with exponential backoff before the attempt fails,
while malformed replies, other HTTP errors (auth), timeouts and
exceptions fail immediately with exactly one attempt and no wait; the
call always returns a value (an optional result) rather than raising,
and the accumulated backoff is delay * (2 ^ attempts - 2). -/
theorem C6_bounded_retry_with_backoff (tr rest trR : List CFResponse)
    (code : ℕ) (hR : ∀ r ∈ trR, r = CFResponse.rateLimited) :
    (make_request tr 1).2.1 ≤ CF_MAX_RETRIES ∧
    make_request (CFResponse.malformed :: rest) 1 = (none, 1, 0) ∧
    make_request (CFResponse.httpError code :: rest) 1 = (none, 1, 0) ∧
    make_request (CFResponse.timeout :: rest) 1 = (none, 1, 0) ∧
    make_request (CFResponse.exn :: rest) 1 = (none, 1, 0) ∧
    (make_request trR 1).1 = none ∧
    (make_request tr 1).2.2 =
      CF_RETRY_DELAY * (2 ^ (make_request tr 1).2.1 - 2) := by
  refine ⟨?_, rfl, rfl, rfl, rfl,
    make_request_rate_limited_none trR 1 hR, ?_⟩
  · have h0 : (1 : ℕ) ≤ CF_MAX_RETRIES := by simp [CF_MAX_RETRIES]
    have h := make_request_attempts_le tr 1 (le_refl 1) h0
    have h2 : CF_MAX_RETRIES - 1 + 1 = CF_MAX_RETRIES := by
      simp [CF_MAX_RETRIES]
    rw [h2] at h
    exact h
  · rw [make_request_waited tr 1]
    have hk := make_request_attempts_pos tr 1
    obtain ⟨m, hm⟩ : ∃ m, (make_request tr 1).2.1 = m + 1 :=
      ⟨(make_request tr 1).2.1 - 1, by omega⟩
    rw [hm]
    simp only [Nat.add_sub_cancel]
    simp [pow_succ]
    ring

/-- Witness for C6 on the all-rate-limited three-response trace. -/
theorem C6_bounded_retry_with_backoff_witness :
    ((make_request [CFResponse.rateLimited, CFResponse.rateLimited,
        CFResponse.rateLimited] 1).2.1 ≤ CF_MAX_RETRIES) ∧
    make_request (CFResponse.timeout :: []) 1 = (none, 1, 0) ∧
    ((make_request [CFResponse.rateLimited, CFResponse.rateLimited,
        CFResponse.rateLimited] 1).1 = none) ∧
    ((make_request [CFResponse.rateLimited, CFResponse.rateLimited,
        CFResponse.rateLimited] 1).2.2 =
      CF_RETRY_DELAY *
        (2 ^ (make_request [CFResponse.rateLimited, CFResponse.rateLimited,
          CFResponse.rateLimited] 1).2.1 - 2)) := by
  have h := C6_bounded_retry_with_backoff
    [CFResponse.rateLimited, CFResponse.rateLimited, CFResponse.rateLimited] []
    [CFResponse.rateLimited, CFResponse.rateLimited, CFResponse.rateLimited]
    401 (by decide)
  exact ⟨h.1, h.2.2.2.1, h.2.2.2.2.2.1, h.2.2.2.2.2.2⟩

/-- The truncating dot product is symmetric. -/
lemma dotQ_comm (v w : Emb) : dotQ v w = dotQ w v := by
  unfold dotQ
  rw [List.zipWith_comm_of_comm (fun a b => a * b) mul_comm]

/-- The squared norm is a sum of squares, hence non-negative. -/
lemma normSq_nonneg (v : Emb) : 0 ≤ normSq v := by
  unfold normSq dotQ
  induction v with
  | nil => simp
  | cons a t ih =>
    simp only [List.zipWith_cons_cons, List.sum_cons]
    exact add_nonneg (mul_self_nonneg a) ih

/-- One inductive step of Cauchy-Schwarz. -/
lemma cs_step (a b S A B : ℚ) (hA : 0 ≤ A) (hB : 0 ≤ B) (hS : S ^ 2 ≤ A * B) :
    (a * b + S) ^ 2 ≤ (a * a + A) * (b * b + B) := by
  rcases eq_or_lt_of_le hB with hB0 | hBpos
  · have hS0 : S = 0 := by nlinarith [sq_nonneg S]
    subst hS0
    rw [← hB0]
    nlinarith [mul_nonneg hA (mul_self_nonneg b)]
  · nlinarith [sq_nonneg (a * B - b * S),
      mul_nonneg (add_nonneg (mul_self_nonneg b) hB) (sub_nonneg.mpr hS), hBpos]

/-- Cauchy-Schwarz for the truncating list dot product. -/
lemma dotQ_sq_le (v : Emb) : ∀ (w : Emb), dotQ v w ^ 2 ≤ normSq v * normSq w := by
  induction v with
  | nil =>
    intro w
    simp [dotQ, normSq]
  | cons a t ih =>
    intro w
    cases w with
    | nil =>
      simp [dotQ, normSq]
    | cons b u =>
      have h := cs_step a b (dotQ t u) (normSq t) (normSq u)
        (normSq_nonneg t) (normSq_nonneg u) (ih u)
      simpa [dotQ, normSq, List.zipWith_cons_cons, List.sum_cons] using h

/-- The cosine similarity of the code is bounded by 1 in absolute value. -/
lemma cosine_abs_le (v w : Emb) : |cosine_similarity v w| ≤ 1 := by
  unfold cosine_similarity
  by_cases h : Real.sqrt ((normSq v : ℚ) : ℝ) = 0 ∨
      Real.sqrt ((normSq w : ℚ) : ℝ) = 0
  · rw [if_pos h]
    simp
  · rw [if_neg h]
    push_neg at h
    have hv : (0 : ℝ) ≤ ((normSq v : ℚ) : ℝ) := by
      exact_mod_cast normSq_nonneg v
    have hw : (0 : ℝ) ≤ ((normSq w : ℚ) : ℝ) := by
      exact_mod_cast normSq_nonneg w
    have h1 : 0 < Real.sqrt ((normSq v : ℚ) : ℝ) :=
      lt_of_le_of_ne (Real.sqrt_nonneg _) (Ne.symm h.1)
    have h2 : 0 < Real.sqrt ((normSq w : ℚ) : ℝ) :=
      lt_of_le_of_ne (Real.sqrt_nonneg _) (Ne.symm h.2)
    have hcs : ((dotQ v w : ℚ) : ℝ) ^ 2 ≤
        ((normSq v : ℚ) : ℝ) * ((normSq w : ℚ) : ℝ) := by
      exact_mod_cast dotQ_sq_le v w
    have habs : |((dotQ v w : ℚ) : ℝ)| ≤
        Real.sqrt ((normSq v : ℚ) : ℝ) * Real.sqrt ((normSq w : ℚ) : ℝ) := by
      calc |((dotQ v w : ℚ) : ℝ)| = Real.sqrt (((dotQ v w : ℚ) : ℝ) ^ 2) :=
            (Real.sqrt_sq_eq_abs _).symm
        _ ≤ Real.sqrt (((normSq v : ℚ) : ℝ) * ((normSq w : ℚ) : ℝ)) :=
            Real.sqrt_le_sqrt hcs
        _ = Real.sqrt ((normSq v : ℚ) : ℝ) * Real.sqrt ((normSq w : ℚ) : ℝ) :=
            Real.sqrt_mul hv _
    rw [abs_div]
    rw [div_le_one (by rw [abs_of_pos (mul_pos h1 h2)]; exact mul_pos h1 h2)]
    rw [abs_of_pos (mul_pos h1 h2)]
    exact habs

/-- The cosine similarity of the code is symmetric. -/
lemma cosine_comm (v w : Emb) : cosine_similarity v w = cosine_similarity w v := by
  unfold cosine_similarity
  rw [dotQ_comm]
  by_cases h : Real.sqrt ((normSq v : ℚ) : ℝ) = 0 ∨
      Real.sqrt ((normSq w : ℚ) : ℝ) = 0
  · rw [if_pos h, if_pos (Or.symm h)]
  · rw [if_neg h, if_neg (fun hh => h (Or.symm hh)), mul_comm]

/-- C7: cosine similarity is symmetric in its two arguments, bounded in
the interval from -1 to 1, and returns exactly 0 whenever either vector
has zero norm instead of dividing by zero. -/
theorem C7_cosine_symmetric_bounded_zero (v w : Emb) :
    cosine_similarity v w = cosine_similarity w v ∧
    -1 ≤ cosine_similarity v w ∧ cosine_similarity v w ≤ 1 ∧
    (normSq v = 0 ∨ normSq w = 0 → cosine_similarity v w = 0) := by
  refine ⟨cosine_comm v w, neg_le_of_abs_le (cosine_abs_le v w),
    le_of_abs_le (cosine_abs_le v w), ?_⟩
  intro h
  unfold cosine_similarity
  rw [if_pos]
  rcases h with h | h
  · left
    rw [h]
    simp
  · right
    rw [h]
    simp

/-- Witness for C7 at concrete vectors, including a zero-norm vector. -/
theorem C7_cosine_symmetric_bounded_zero_witness :
    cosine_similarity [0, 0] [3, 4] = 0 ∧
    cosine_similarity [1, 2] [2, 1] = cosine_similarity [2, 1] [1, 2] ∧
    -1 ≤ cosine_similarity [1, 2] [2, 1] ∧
    cosine_similarity [1, 2] [2, 1] ≤ 1 := by
  have h1 := C7_cosine_symmetric_bounded_zero [0, 0] [3, 4]
  have h2 := C7_cosine_symmetric_bounded_zero [1, 2] [2, 1]
  exact ⟨h1.2.2.2 (Or.inl (by norm_num [normSq, dotQ])), h2.1, h2.2.1, h2.2.2.1⟩
